import Mathlib

/-!
Shallow embedding of `log_execution_plan/tensor_memory_simulator.py`.

The Python `MemorySimulator` is modelled as a pure state-passing program:

* Python `int` is modelled as `Int`, with `Int.fdiv` for Python's floor
  division `//`.
* The `OrderedDict` `ram_blocks` is an insertion-ordered association list
  `List (Int × Block)` whose head is the least-recently-used entry
  (`next(iter(...))` in Python) and whose tail end is the most recent
  (`move_to_end` appends there).
* Python `dict` (`tensor_data`) is an insertion-ordered association list.
* Python `set`s of tensor ids are canonical lists in `tensor_data` order
  (the simulator only uses membership, `min`, and set difference, none of
  which depend on iteration order).
* `print` calls are effect-only and have no counterpart; everything that
  feeds the returned statistics or the event log is modelled.
-/

/-- The fields of a tensor-table entry (`tensor_data[tid]`) that the
simulator reads: `tensor['address']` and `tensor['size']`. -/
structure Tensor where
  address : Int
  size : Int
deriving DecidableEq

/-- Mirrors the Python dataclass `Block`. -/
structure Block where
  start_address : Int
  size : Int
  tensor_ids : List Int
  last_access : Nat
  dirty : Bool := false
deriving DecidableEq

/-- Mirrors the Python dataclass `MemoryEvent`. -/
structure MemoryEvent where
  step : Nat
  node_idx : Int
  event_type : String
  tensor_id : Int
  block_address : Int
  block_size : Int
  shared_tensors : List Int
  is_write : Bool := false
deriving DecidableEq

/-- One node of the execution plan: `node['node_idx']`, `node['operator']`,
`node['inputs']`, `node['outputs']`. -/
structure PlanNode where
  node_idx : Int
  operator : String
  inputs : List Int
  outputs : List Int
deriving DecidableEq

/-- The `self.stats` dictionary. -/
structure Stats where
  block_hits : Nat := 0
  block_misses : Nat := 0
  block_evictions : Nat := 0
  total_io : Int := 0
  peak_memory : Int := 0
  tensor_hits : Nat := 0
  tensor_misses : Nat := 0
  shared_block_accesses : Nat := 0
  memory_saved_sharing : Int := 0
deriving DecidableEq

/-- The constructor arguments of `MemorySimulator`. -/
structure SimConfig where
  ram_size : Int
  block_size : Int
  tensor_data : List (Int × Tensor)
  execution_plan : List PlanNode
deriving DecidableEq

/-- The mutable attributes of a `MemorySimulator` instance. -/
structure SimState where
  stats : Stats
  ram_blocks : List (Int × Block)
  tensor_to_blocks : List (Int × List Int)
  current_ram_usage : Int
  memory_events : List MemoryEvent
  address_to_tensors : List (Int × List Int)
deriving DecidableEq

/-- Python `range(start, stop, step)` for a positive `step`. -/
def int_range (start stop step : Int) : List Int :=
  (List.range (((stop - start + step - 1).fdiv step).toNat)).map
    (fun k => start + (k : Int) * step)

/-- Python `k in d` on an (insertion-ordered) dict. -/
def alist_contains {α : Type} (d : List (Int × α)) (k : Int) : Bool :=
  d.any (fun p => p.1 == k)

/-- Python `d[k]` on an (insertion-ordered) dict, as an `Option`. -/
def alist_lookup {α : Type} (d : List (Int × α)) (k : Int) : Option α :=
  (d.find? (fun p => p.1 == k)).map Prod.snd

/-- Python `d[k] = v` on an `OrderedDict`: replace in place when the key is
present, append otherwise. -/
def od_set {α : Type} (d : List (Int × α)) (k : Int) (v : α) : List (Int × α) :=
  if d.any (fun p => p.1 == k) then
    d.map (fun p => if p.1 == k then (k, v) else p)
  else d ++ [(k, v)]

/-- The value-update (`existing_block.last_access = step; if is_write:
existing_block.dirty = True`) followed by `move_to_end` on the `OrderedDict`:
the (unique) entry for `k` is removed and re-appended with the new value. -/
def move_to_end (d : List (Int × Block)) (k : Int) (v : Block) : List (Int × Block) :=
  (d.filter (fun p => !(p.1 == k))) ++ [(k, v)]

/-- `self.tensor_to_blocks[tid]` on the `defaultdict(set)`. -/
def ttb_get (m : List (Int × List Int)) (k : Int) : List Int :=
  (alist_lookup m k).getD []

/-- Write back one key of the `defaultdict(set)` (creating it if absent). -/
def ttb_set (m : List (Int × List Int)) (k : Int) (v : List Int) : List (Int × List Int) :=
  if m.any (fun p => p.1 == k) then
    m.map (fun p => if p.1 == k then (k, v) else p)
  else m ++ [(k, v)]

/-- `self.tensor_to_blocks[tid].add(a)`. -/
def ttb_add (m : List (Int × List Int)) (k a : Int) : List (Int × List Int) :=
  let s := ttb_get m k
  ttb_set m k (if s.contains a then s else s ++ [a])

/-- `if a in self.tensor_to_blocks[tid]: self.tensor_to_blocks[tid].remove(a)`. -/
def ttb_remove (m : List (Int × List Int)) (k a : Int) : List (Int × List Int) :=
  ttb_set m k ((ttb_get m k).filter (fun x => !(x == a)))

/-- `self.total_blocks = ram_size // block_size`. -/
def total_blocks (cfg : SimConfig) : Int :=
  cfg.ram_size.fdiv cfg.block_size

/-- `MemorySimulator._get_block_boundaries`. -/
def get_block_boundaries (cfg : SimConfig) (address : Int) : Int × Int :=
  let block_start := (address.fdiv cfg.block_size) * cfg.block_size
  (block_start, block_start + cfg.block_size)

/-- `MemorySimulator._find_tensors_in_block` (result in `tensor_data` order). -/
def find_tensors_in_block (cfg : SimConfig) (block_start block_end : Int) : List Int :=
  (cfg.tensor_data.filter (fun p =>
    !(decide (p.2.address + p.2.size ≤ block_start) ||
      decide (p.2.address ≥ block_end)))).map Prod.fst

/-- `MemorySimulator._calculate_blocks_for_tensor` (the caller has already
looked the tensor up in `tensor_data`). -/
def calculate_blocks_for_tensor (cfg : SimConfig) (t : Tensor) : List Block :=
  let tensor_start := t.address
  let tensor_end := tensor_start + t.size
  let start_block_addr := (get_block_boundaries cfg tensor_start).1
  let end_block_addr := (get_block_boundaries cfg (tensor_end - 1)).1
  (int_range start_block_addr (end_block_addr + 1) cfg.block_size).map
    (fun block_start =>
      { start_address := block_start
        size := cfg.block_size
        tensor_ids := find_tensors_in_block cfg block_start (block_start + cfg.block_size)
        last_access := 0
        dirty := false })

/-- `MemorySimulator._log_memory_event`. -/
def log_memory_event (st : SimState) (step : Nat) (node_idx : Int)
    (event_type : String) (tensor_id block_address block_size : Int)
    (shared_tensors : List Int) (is_write : Bool) : SimState :=
  { st with memory_events := st.memory_events ++
      [{ step := step, node_idx := node_idx, event_type := event_type,
         tensor_id := tensor_id, block_address := block_address,
         block_size := block_size, shared_tensors := shared_tensors,
         is_write := is_write }] }

/-- Python `min` over a (nonempty, in every reachable call) set of ids. -/
def list_min : List Int → Int
  | [] => 0
  | x :: xs => xs.foldl min x

/-- `MemorySimulator._evict_block`. -/
def evict_block (cfg : SimConfig) (st : SimState) (step : Nat) (node_idx : Int) : SimState :=
  match st.ram_blocks with
  | [] => st
  | (lru_addr, lru_block) :: rest =>
    let stats1 := if lru_block.dirty then
        { st.stats with total_io := st.stats.total_io + cfg.block_size }
      else st.stats
    let ttb := lru_block.tensor_ids.foldl (fun m tid => ttb_remove m tid lru_addr)
      st.tensor_to_blocks
    let stats2 := { stats1 with block_evictions := stats1.block_evictions + 1 }
    let primary_tensor := list_min lru_block.tensor_ids
    let other_tensors := lru_block.tensor_ids.filter (fun x => !(x == primary_tensor))
    let usage := st.current_ram_usage - cfg.block_size
    let st1 : SimState :=
      { st with stats := stats2, tensor_to_blocks := ttb, ram_blocks := rest, current_ram_usage := usage }
    log_memory_event st1 step node_idx "evict_block" primary_tensor lru_addr
      cfg.block_size other_tensors false

/-- `MemorySimulator._load_block`. -/
def load_block (cfg : SimConfig) (st : SimState) (block : Block) (step : Nat)
    (node_idx : Int) : SimState :=
  let st := if total_blocks cfg ≤ (st.ram_blocks.length : Int) then
      evict_block cfg st step node_idx
    else st
  let block := { block with last_access := step }
  let st := { st with ram_blocks := od_set st.ram_blocks block.start_address block }
  let ttb := block.tensor_ids.foldl (fun m tid => ttb_add m tid block.start_address)
    st.tensor_to_blocks
  let st := { st with tensor_to_blocks := ttb }
  let stats1 := { st.stats with total_io := st.stats.total_io + block.size }
  let stats2 := { stats1 with block_misses := stats1.block_misses + 1 }
  let st := { st with current_ram_usage := st.current_ram_usage + block.size, stats := stats2 }
  let primary_tensor := list_min block.tensor_ids
  let other_tensors := block.tensor_ids.filter (fun x => !(x == primary_tensor))
  log_memory_event st step node_idx "load_block" primary_tensor
    block.start_address block.size other_tensors false

/-- The hit-branch mutation of the resident block: update `last_access`,
and set `dirty` on a write. -/
def hit_update (b : Block) (step : Nat) (is_write : Bool) : Block :=
  { b with last_access := step, dirty := if is_write then true else b.dirty }

/-- The body of the `for block in blocks` loop of
`MemorySimulator._access_tensor`; the returned `Bool` is whether the block
was resident (a hit). -/
def access_block (cfg : SimConfig) (st : SimState) (tensor_id : Int) (step : Nat)
    (node_idx : Int) (is_write : Bool) (block : Block) : SimState × Bool :=
  match st.ram_blocks.find? (fun p => p.1 == block.start_address) with
  | some existing =>
    let existing_block := hit_update existing.2 step is_write
    let st := { st with
      ram_blocks := move_to_end st.ram_blocks block.start_address existing_block,
      stats := { st.stats with block_hits := st.stats.block_hits + 1 } }
    (log_memory_event st step node_idx "access_block" tensor_id
      block.start_address block.size
      (existing_block.tensor_ids.filter (fun x => !(x == tensor_id))) is_write,
     true)
  | none => (load_block cfg st block step node_idx, false)

/-- `MemorySimulator._access_tensor`. -/
def access_tensor (cfg : SimConfig) (st : SimState) (tensor_id : Int) (step : Nat)
    (node_idx : Int) (is_write : Bool) : SimState :=
  match alist_lookup cfg.tensor_data tensor_id with
  | none => st
  | some t =>
    let blocks := calculate_blocks_for_tensor cfg t
    let r := blocks.foldl (fun (acc : SimState × Bool) block =>
      let s := access_block cfg acc.1 tensor_id step node_idx is_write block
      (s.1, acc.2 && s.2)) (st, true)
    if r.2 then
      { r.1 with stats := { r.1.stats with tensor_hits := r.1.stats.tensor_hits + 1 } }
    else
      { r.1 with stats := { r.1.stats with tensor_misses := r.1.stats.tensor_misses + 1 } }

/-- One iteration of the `for step, node in enumerate(self.execution_plan)`
loop of `MemorySimulator.simulate`: read all inputs, write all outputs,
then update peak memory. -/
def process_node (cfg : SimConfig) (st : SimState) (step : Nat) (node : PlanNode) : SimState :=
  let st := node.inputs.foldl (fun st tensor_id =>
    if alist_contains cfg.tensor_data tensor_id then
      access_tensor cfg st tensor_id step node.node_idx false
    else st) st
  let st := node.outputs.foldl (fun st tensor_id =>
    if alist_contains cfg.tensor_data tensor_id then
      access_tensor cfg st tensor_id step node.node_idx true
    else st) st
  { st with stats := { st.stats with
      peak_memory := max st.stats.peak_memory st.current_ram_usage } }

/-- The `self.address_to_tensors` map built by
`MemorySimulator._build_address_mapping`. -/
def build_address_to_tensors (cfg : SimConfig) : List (Int × List Int) :=
  cfg.tensor_data.foldl (fun m p =>
    ttb_add m (get_block_boundaries cfg p.2.address).1 p.1) []

/-- The `unique_blocks` set of `MemorySimulator._build_address_mapping`
(as a duplicate-free list in first-seen order). -/
def unique_blocks (cfg : SimConfig) : List Int :=
  cfg.tensor_data.foldl (fun acc p =>
    let start_addr := p.2.address
    let end_addr := start_addr + p.2.size
    let start_block := (get_block_boundaries cfg start_addr).1
    let end_block := (get_block_boundaries cfg (end_addr - 1)).1
    (int_range start_block (end_block + cfg.block_size) cfg.block_size).foldl
      (fun acc b => if acc.contains b then acc else acc ++ [b]) acc) []

/-- `stats['memory_saved_sharing']` as computed by `_build_address_mapping`. -/
def memory_saved_sharing_calc (cfg : SimConfig) : Int :=
  (cfg.tensor_data.map (fun p => p.2.size)).sum -
    ((unique_blocks cfg).length : Int) * cfg.block_size

/-- The state after `MemorySimulator.__init__` (no validation is performed
by the constructor). -/
def init_state (cfg : SimConfig) : SimState :=
  { stats := { memory_saved_sharing := memory_saved_sharing_calc cfg }
    ram_blocks := []
    tensor_to_blocks := []
    current_ram_usage := 0
    memory_events := []
    address_to_tensors := build_address_to_tensors cfg }

/-- `MemorySimulator.simulate`, returning the whole final state. -/
def run_simulation (cfg : SimConfig) : SimState :=
  (cfg.execution_plan.enum).foldl (fun st sn => process_node cfg st sn.1 sn.2)
    (init_state cfg)

/-- The dictionary returned by `MemorySimulator.simulate`. -/
def simulate (cfg : SimConfig) : Stats :=
  (run_simulation cfg).stats

/-! ### Concrete scenarios used by the claims -/

/-- The end-to-end scenario: capacity 2, three single-block tensors,
plan reading T1, T2, T3, T1. -/
def c1_cfg : SimConfig :=
  { ram_size := 8192, block_size := 4096,
    tensor_data := [(1, ⟨0, 4096⟩), (2, ⟨4096, 4096⟩), (3, ⟨8192, 4096⟩)],
    execution_plan :=
      [{ node_idx := 0, operator := "OP0", inputs := [1], outputs := [] },
       { node_idx := 1, operator := "OP1", inputs := [2], outputs := [] },
       { node_idx := 2, operator := "OP2", inputs := [3], outputs := [] },
       { node_idx := 3, operator := "OP3", inputs := [1], outputs := [] }] }

/-- C1: with block size 4096 and RAM 8192 (capacity 2), tensors of size 4096
at 0, 4096, 8192 and a plan of four nodes reading T1, T2, T3, T1, the final
stats are block_hits = 0, block_misses = 4, block_evictions = 2 and
peak_memory = 8192, and the two eviction events are block 0 at the T3 access
(step 2) and block 4096 at the second T1 access (step 3). -/
theorem c1_end_to_end_scenario :
    (simulate c1_cfg).block_hits = 0 ∧
    (simulate c1_cfg).block_misses = 4 ∧
    (simulate c1_cfg).block_evictions = 2 ∧
    (simulate c1_cfg).peak_memory = 8192 ∧
    (run_simulation c1_cfg).memory_events.filter
        (fun e => e.event_type == "evict_block") =
      [{ step := 2, node_idx := 2, event_type := "evict_block", tensor_id := 1,
         block_address := 0, block_size := 4096, shared_tensors := [],
         is_write := false },
       { step := 3, node_idx := 3, event_type := "evict_block", tensor_id := 2,
         block_address := 4096, block_size := 4096, shared_tensors := [],
         is_write := false }] := by
  decide

/-- A single tensor filling block 0, and a plan whose only access is a
write to that tensor (a write miss). -/
def c3_cfg : SimConfig :=
  { ram_size := 4096, block_size := 4096,
    tensor_data := [(1, ⟨0, 4096⟩)],
    execution_plan := [{ node_idx := 0, operator := "OP0", inputs := [], outputs := [1] }] }

/-- C3 counterexample: the only access of `c3_cfg` is a write to tensor 1 and
it is a miss (block_misses = 1, block_hits = 0), yet after `simulate()` the
loaded block is resident with `dirty = false`: a write access does NOT set
the dirty flag on a block that had to be loaded, contradicting the claim's
"whether the block was resident (hit) or had to be loaded (miss)". -/
theorem c3_write_miss_leaves_block_clean :
    (simulate c3_cfg).block_misses = 1 ∧
    (simulate c3_cfg).block_hits = 0 ∧
    (run_simulation c3_cfg).ram_blocks =
      [(0, { start_address := 0, size := 4096, tensor_ids := [1],
             last_access := 0, dirty := false })] := by
  decide

/-- Configuration for the dirty-eviction witness state. -/
def c3w_cfg : SimConfig :=
  { ram_size := 4096, block_size := 4096, tensor_data := [(1, ⟨0, 4096⟩)],
    execution_plan := [] }

/-- A dirty resident block, as left by a read access followed by a write hit. -/
def c3w_block : Block :=
  { start_address := 0, size := 4096, tensor_ids := [1], last_access := 1, dirty := true }

/-- A simulator state whose cache holds exactly the dirty block `c3w_block`. -/
def c3w_st : SimState :=
  { stats := { block_hits := 1, block_misses := 1, total_io := 4096 },
    ram_blocks := [(0, c3w_block)],
    tensor_to_blocks := [(1, [0])],
    current_ram_usage := 4096,
    memory_events := [],
    address_to_tensors := [(0, [1])] }

/-- C3 (amended): a write access sets the dirty flag only on blocks that are
already resident (the hit branch); a block loaded by a miss is always created
clean, even for a write access; evicting a dirty block adds exactly
block_size to total_io, and evicting a clean block adds nothing. -/
theorem c3_amended_dirty_accounting :
    (∀ (b : Block) (step : Nat), (hit_update b step true).dirty = true) ∧
    (∀ (b : Block) (step : Nat), (hit_update b step false).dirty = b.dirty) ∧
    (∀ (cfg : SimConfig) (t : Tensor) (b : Block),
      b ∈ calculate_blocks_for_tensor cfg t → b.dirty = false) ∧
    (∀ (cfg : SimConfig) (st : SimState) (step : Nat) (nidx a : Int)
        (b : Block) (rest : List (Int × Block)),
      st.ram_blocks = (a, b) :: rest →
      (evict_block cfg st step nidx).stats.total_io =
        st.stats.total_io + (if b.dirty then cfg.block_size else 0)) := by
  refine ⟨fun b step => rfl, fun b step => rfl, ?_, ?_⟩
  · intro cfg t b hb
    simp only [calculate_blocks_for_tensor, List.mem_map] at hb
    obtain ⟨a, -, rfl⟩ := hb
    rfl
  · intro cfg st step nidx a b rest h
    cases hb : b.dirty <;>
      simp [evict_block, h, hb, log_memory_event]

/-- Witness for the amended C3: on the concrete dirty-block state `c3w_st`,
eviction adds exactly one block of write-back I/O. -/
theorem c3_amended_dirty_accounting_witness :
    (evict_block c3w_cfg c3w_st 2 0).stats.total_io = 4096 + 4096 := by
  have h := c3_amended_dirty_accounting.2.2.2 c3w_cfg c3w_st 2 0 0 c3w_block []
    (by decide)
  rw [h]; decide

/-- Two tensors whose byte ranges fall in the same block 0, the plan reading
tensor 1 (miss) then tensor 2 (hit). -/
def c4_cfg : SimConfig :=
  { ram_size := 8192, block_size := 4096,
    tensor_data := [(1, ⟨0, 100⟩), (2, ⟨100, 100⟩)],
    execution_plan :=
      [{ node_idx := 0, operator := "OP0", inputs := [1], outputs := [] },
       { node_idx := 1, operator := "OP1", inputs := [2], outputs := [] }] }

/-- C4: at the failing input `c4_cfg` (tensors 1 and 2 share block 0;
tensor 1 is read, loading the block, then tensor 2 is read), tensor 2's
access is indeed a hit with zero extra I/O (block_hits = 1, total_io stays at
one block), but `shared_block_accesses` is 0: the counter is initialized and
reported by the code but never incremented anywhere. -/
theorem c4_shared_access_counter_never_incremented :
    (simulate c4_cfg).block_hits = 1 ∧
    (simulate c4_cfg).block_misses = 1 ∧
    (simulate c4_cfg).total_io = 4096 ∧
    (simulate c4_cfg).shared_block_accesses = 0 ∧
    (run_simulation c4_cfg).memory_events =
      [{ step := 0, node_idx := 0, event_type := "load_block", tensor_id := 1,
         block_address := 0, block_size := 4096, shared_tensors := [2],
         is_write := false },
       { step := 1, node_idx := 1, event_type := "access_block", tensor_id := 2,
         block_address := 0, block_size := 4096, shared_tensors := [1],
         is_write := false }] := by
  decide

/-- A configuration with ram_size 2048 < block_size 4096 (capacity 0). -/
def c5_cfg : SimConfig :=
  { ram_size := 2048, block_size := 4096,
    tensor_data := [(1, ⟨0, 4096⟩), (2, ⟨4096, 4096⟩)],
    execution_plan :=
      [{ node_idx := 0, operator := "OP0", inputs := [1], outputs := [] },
       { node_idx := 1, operator := "OP1", inputs := [2], outputs := [] }] }

/-- C5 counterexample: constructing with ram_size = 2048 < block_size = 4096
raises nothing: total_blocks is 0 and `simulate()` is entered and runs the
whole two-node plan (two misses, one eviction), contradicting the claim that
such a configuration surfaces an error before any simulation step. -/
theorem c5_no_config_error_at_bad_config :
    total_blocks c5_cfg = 0 ∧
    (simulate c5_cfg).block_misses = 2 ∧
    (simulate c5_cfg).block_evictions = 1 ∧
    (simulate c5_cfg).peak_memory = 4096 := by
  decide

/-- C5 (amended): the constructor performs no configuration validation and
has no error path: for every configuration with 0 ≤ ram_size < block_size it
simply computes capacity total_blocks = ram_size // block_size = 0, and
`simulate()` runs (the counterexample run `c5_cfg` exercises this). -/
theorem c5_amended_no_validation (cfg : SimConfig)
    (h0 : 0 ≤ cfg.ram_size) (h1 : cfg.ram_size < cfg.block_size) :
    total_blocks cfg = 0 := by
  unfold total_blocks
  rw [Int.fdiv_eq_ediv _ (le_of_lt (lt_of_le_of_lt h0 h1))]
  exact Int.ediv_eq_zero_of_lt h0 h1

/-- Witness for the amended C5 at the concrete bad configuration. -/
theorem c5_amended_no_validation_witness : total_blocks c5_cfg = 0 :=
  c5_amended_no_validation c5_cfg (by decide) (by decide)

/-- A small configuration exercised by the determinism and unknown-tensor
witnesses. -/
def c8_cfg : SimConfig :=
  { ram_size := 8192, block_size := 4096,
    tensor_data := [(1, ⟨0, 4096⟩), (2, ⟨4096, 4096⟩)],
    execution_plan :=
      [{ node_idx := 0, operator := "OP0", inputs := [1, 7], outputs := [2] }] }

/-- C8: the simulator is deterministic: identical configuration, tensor
table and execution plan produce identical final Stats and an identical
event log. -/
theorem c8_simulation_deterministic (cfg₁ cfg₂ : SimConfig) (h : cfg₁ = cfg₂) :
    simulate cfg₁ = simulate cfg₂ ∧
    (run_simulation cfg₁).memory_events = (run_simulation cfg₂).memory_events := by
  subst h; exact ⟨rfl, rfl⟩

/-- Witness for C8 at a concrete configuration. -/
theorem c8_simulation_deterministic_witness :
    simulate c8_cfg = simulate c8_cfg ∧
    (run_simulation c8_cfg).memory_events = (run_simulation c8_cfg).memory_events :=
  c8_simulation_deterministic c8_cfg c8_cfg rfl

/-- `tensor_id not in self.tensor_data` makes the membership test of the
driver loops false as well. -/
theorem alist_contains_eq_false {α : Type} (d : List (Int × α)) (k : Int)
    (h : alist_lookup d k = none) : alist_contains d k = false := by
  simp only [alist_lookup, Option.map_eq_none'] at h
  rw [List.find?_eq_none] at h
  simp only [alist_contains, List.any_eq_false]
  exact h

/-- A table that does not contain tensor id 99, and a plan mentioning it. -/
def c9_cfg : SimConfig :=
  { ram_size := 8192, block_size := 4096,
    tensor_data := [(1, ⟨0, 4096⟩)],
    execution_plan := [{ node_idx := 0, operator := "OP0", inputs := [99, 1], outputs := [] }] }

/-- C9: an access whose tensor id is absent from the tensor table is skipped
without failing: `_access_tensor` returns the state unchanged (cache, stats
and event log included), and at driver level a node with the unknown id in
its inputs (or outputs) behaves exactly like the same node without it, so the
simulation continues with the remaining plan entries. -/
theorem c9_unknown_tensor_is_noop (cfg : SimConfig) (st : SimState) (tid : Int)
    (step : Nat) (nidx : Int) (w : Bool)
    (h : alist_lookup cfg.tensor_data tid = none) :
    access_tensor cfg st tid step nidx w = st ∧
    (∀ (i : Int) (op : String) (ins outs : List Int),
      process_node cfg st step
          { node_idx := i, operator := op, inputs := tid :: ins, outputs := outs } =
        process_node cfg st step
          { node_idx := i, operator := op, inputs := ins, outputs := outs }) ∧
    (∀ (i : Int) (op : String) (ins outs : List Int),
      process_node cfg st step
          { node_idx := i, operator := op, inputs := ins, outputs := tid :: outs } =
        process_node cfg st step
          { node_idx := i, operator := op, inputs := ins, outputs := outs }) := by
  have hc := alist_contains_eq_false _ _ h
  refine ⟨by simp [access_tensor, h], ?_, ?_⟩
  · intro i op ins outs
    simp [process_node, hc]
  · intro i op ins outs
    simp [process_node, hc]

/-- Witness for C9: accessing the unknown tensor id 99 leaves the freshly
constructed state of `c9_cfg` untouched. -/
theorem c9_unknown_tensor_is_noop_witness :
    access_tensor c9_cfg (init_state c9_cfg) 99 0 0 false = init_state c9_cfg :=
  (c9_unknown_tensor_is_noop c9_cfg (init_state c9_cfg) 99 0 0 false (by decide)).1

/-- Configuration for the hit-branch witness. -/
def c7_cfg : SimConfig :=
  { ram_size := 8192, block_size := 4096, tensor_data := [(1, ⟨0, 4096⟩)],
    execution_plan := [] }

/-- The single block of tensor 1 in `c7_cfg`. -/
def c7_blk : Block :=
  { start_address := 0, size := 4096, tensor_ids := [1], last_access := 0, dirty := false }

/-- A state in which `c7_blk` is resident. -/
def c7_st : SimState :=
  { stats := { block_misses := 1, total_io := 4096 },
    ram_blocks := [(0, c7_blk)],
    tensor_to_blocks := [(1, [0])],
    current_ram_usage := 4096,
    memory_events := [],
    address_to_tensors := [(0, [1])] }

/-- C7: accessing a block that is already resident makes it the
most-recently-used cache entry (the last entry, i.e. the final candidate for
the head-first LRU eviction), increments the block-hit counter by exactly 1,
leaves total_io unchanged, sets the dirty flag exactly when the access is a
write (otherwise leaves it as it was), and appends one `access_block` event
for that block. -/
theorem c7_resident_access_hit (cfg : SimConfig) (st : SimState) (tid : Int)
    (step : Nat) (nidx : Int) (w : Bool) (blk : Block) (pr : Int × Block)
    (h : st.ram_blocks.find? (fun p => p.1 == blk.start_address) = some pr) :
    (access_block cfg st tid step nidx w blk).2 = true ∧
    (access_block cfg st tid step nidx w blk).1.ram_blocks.getLast? =
      some (blk.start_address, hit_update pr.2 step w) ∧
    (access_block cfg st tid step nidx w blk).1.stats.block_hits =
      st.stats.block_hits + 1 ∧
    (access_block cfg st tid step nidx w blk).1.stats.total_io =
      st.stats.total_io ∧
    (hit_update pr.2 step w).dirty = (if w then true else pr.2.dirty) ∧
    (access_block cfg st tid step nidx w blk).1.memory_events =
      st.memory_events ++
        [{ step := step, node_idx := nidx, event_type := "access_block",
           tensor_id := tid, block_address := blk.start_address,
           block_size := blk.size,
           shared_tensors := pr.2.tensor_ids.filter (fun x => !(x == tid)),
           is_write := w }] := by
  refine ⟨?_, ?_, ?_, ?_, ?_, ?_⟩ <;>
    simp [access_block, h, move_to_end, log_memory_event, hit_update,
      List.getLast?_concat]

/-- Witness for C7: a concrete write hit on the resident block of `c7_st`. -/
theorem c7_resident_access_hit_witness :
    (access_block c7_cfg c7_st 1 5 0 true c7_blk).1.stats.block_hits =
      c7_st.stats.block_hits + 1 :=
  (c7_resident_access_hit c7_cfg c7_st 1 5 0 true c7_blk (0, c7_blk)
    (by decide)).2.2.1

/-! ### Helper lemmas about the cache primitives -/

/-- Folding a state-preserving function preserves a predicate. -/
theorem foldl_preserves {β : Type} (P : SimState → Prop) (f : SimState → β → SimState)
    (hf : ∀ st b, P st → P (f st b)) :
    ∀ (l : List β) (st : SimState), P st → P (l.foldl f st) := by
  intro l
  induction l with
  | nil => exact fun st h => h
  | cons b t ih => exact fun st h => ih _ (hf st b h)

/-- Folding over `SimState × Bool` accumulators preserves a predicate of the
state component. -/
theorem foldl_preserves_fst {β : Type} (P : SimState → Prop)
    (f : SimState × Bool → β → SimState × Bool)
    (hf : ∀ acc b, P acc.1 → P (f acc b).1) :
    ∀ (l : List β) (acc : SimState × Bool), P acc.1 → P (l.foldl f acc).1 := by
  intro l
  induction l with
  | nil => exact fun acc h => h
  | cons b t ih => exact fun acc h => ih _ (hf acc b h)

/-- Eviction pops exactly the head (LRU) entry of the cache. -/
theorem evict_block_ram_blocks (cfg : SimConfig) (st : SimState) (step : Nat)
    (nidx : Int) : (evict_block cfg st step nidx).ram_blocks = st.ram_blocks.tail := by
  unfold evict_block
  cases hrb : st.ram_blocks with
  | nil => simp [hrb]
  | cons p rest => cases p; simp [log_memory_event]

/-- Eviction leaves the hit and miss counters alone and increments the
eviction counter exactly when the cache was nonempty. -/
theorem evict_block_stats (cfg : SimConfig) (st : SimState) (step : Nat) (nidx : Int) :
    (evict_block cfg st step nidx).stats.block_misses = st.stats.block_misses ∧
    (evict_block cfg st step nidx).stats.block_hits = st.stats.block_hits ∧
    (evict_block cfg st step nidx).stats.block_evictions =
      (if st.ram_blocks = [] then st.stats.block_evictions
       else st.stats.block_evictions + 1) := by
  unfold evict_block
  cases hrb : st.ram_blocks with
  | nil => simp
  | cons p rest =>
    cases p with
    | mk a b => cases hd : b.dirty <;> simp [log_memory_event, hd]

/-- The cache after a load: possible eviction, then insertion of the block
stamped with the current step. -/
theorem load_block_ram_blocks (cfg : SimConfig) (st : SimState) (blk : Block)
    (step : Nat) (nidx : Int) :
    (load_block cfg st blk step nidx).ram_blocks =
      od_set (if total_blocks cfg ≤ (st.ram_blocks.length : Int) then
                (evict_block cfg st step nidx).ram_blocks
              else st.ram_blocks)
        blk.start_address { blk with last_access := step } := by
  unfold load_block
  split <;> simp [log_memory_event]

/-- The counters after a load, relative to the intermediate state produced
by the possible eviction. -/
theorem load_block_stats (cfg : SimConfig) (st : SimState) (blk : Block)
    (step : Nat) (nidx : Int) :
    (load_block cfg st blk step nidx).stats.block_misses =
      (if total_blocks cfg ≤ (st.ram_blocks.length : Int) then
        (evict_block cfg st step nidx) else st).stats.block_misses + 1 ∧
    (load_block cfg st blk step nidx).stats.block_hits =
      (if total_blocks cfg ≤ (st.ram_blocks.length : Int) then
        (evict_block cfg st step nidx) else st).stats.block_hits ∧
    (load_block cfg st blk step nidx).stats.block_evictions =
      (if total_blocks cfg ≤ (st.ram_blocks.length : Int) then
        (evict_block cfg st step nidx) else st).stats.block_evictions := by
  unfold load_block
  split <;> simp [log_memory_event]

/-- `OrderedDict` assignment with a fresh key appends the entry. -/
theorem od_set_of_not_mem {α : Type} (d : List (Int × α)) (k : Int) (v : α)
    (h : k ∉ d.map Prod.fst) : od_set d k v = d ++ [(k, v)] := by
  have hc : d.any (fun p => p.1 == k) = false := by
    rw [List.any_eq_false]
    intro p hp hbeq
    exact h (List.mem_map.mpr ⟨p, hp, by simpa using hbeq⟩)
  simp [od_set, hc]

/-- Keys of a filtered association list. -/
theorem map_fst_filter_ne (d : List (Int × Block)) (k : Int) :
    (d.filter (fun p => !(p.1 == k))).map Prod.fst =
      (d.map Prod.fst).filter (fun x => !(x == k)) := by
  induction d with
  | nil => rfl
  | cons p t ih => cases hb : (p.1 == k) <;> simp [List.filter_cons, hb, ih]

/-- Keys of the cache after `move_to_end`. -/
theorem keys_move_to_end (d : List (Int × Block)) (k : Int) (v : Block) :
    (move_to_end d k v).map Prod.fst =
      (d.map Prod.fst).filter (fun x => !(x == k)) ++ [k] := by
  simp [move_to_end, map_fst_filter_ne]

/-- Filtering a missing element away is the identity. -/
theorem filter_ne_of_not_mem (l : List Int) (k : Int) (h : k ∉ l) :
    l.filter (fun x => !(x == k)) = l := by
  rw [List.filter_eq_self]
  intro x hx
  simp only [Bool.not_eq_true', beq_eq_false_iff_ne, ne_eq]
  rintro rfl
  exact h hx

/-- Filtering one occurrence out of a duplicate-free list shortens it by one. -/
theorem length_filter_ne_of_nodup (l : List Int) (k : Int) (hn : l.Nodup)
    (hk : k ∈ l) : (l.filter (fun x => !(x == k))).length + 1 = l.length := by
  induction l with
  | nil => cases hk
  | cons a t ih =>
    rw [List.nodup_cons] at hn
    by_cases hak : a = k
    · subst hak
      have : t.filter (fun x => !(x == a)) = t := filter_ne_of_not_mem t a hn.1
      simp [List.filter_cons, this]
    · have hkt : k ∈ t := by
        rcases List.mem_cons.mp hk with rfl | hkt
        · exact absurd rfl hak
        · exact hkt
      have hb : (a == k) = false := beq_eq_false_iff_ne.mpr hak
      have hlen := ih hn.2 hkt
      simp only [List.filter_cons, hb, Bool.not_false, if_true, List.length_cons]
      omega

/-- Moving an entry to the end keeps the keys duplicate-free. -/
theorem nodup_filter_ne_append (l : List Int) (k : Int) (hn : l.Nodup) :
    ((l.filter (fun x => !(x == k))) ++ [k]).Nodup := by
  rw [List.nodup_append]
  refine ⟨hn.filter _, List.nodup_singleton k, fun x hx hx2 => ?_⟩
  rcases List.mem_filter.mp hx with ⟨-, hpred⟩
  rw [List.mem_singleton] at hx2
  subst hx2
  exact absurd hpred (by simp)

/-- A successful cache probe returns an entry of the cache whose key is the
probed address. -/
theorem find?_some_key {α : Type} {d : List (Int × α)} {k : Int} {pr : Int × α}
    (h : d.find? (fun p => p.1 == k) = some pr) : pr ∈ d ∧ pr.1 = k :=
  ⟨List.mem_of_find?_eq_some h, by simpa using List.find?_some h⟩

/-- A failed cache probe means the address is not among the cache keys. -/
theorem find?_none_not_mem {α : Type} {d : List (Int × α)} {k : Int}
    (h : d.find? (fun p => p.1 == k) = none) : k ∉ d.map Prod.fst := by
  rw [List.find?_eq_none] at h
  intro hk
  rcases List.mem_map.mp hk with ⟨p, hp, rfl⟩
  exact h p hp (by simp)

/-- `move_to_end` keeps the number of cache entries when the key is present
and the keys are duplicate-free. -/
theorem length_move_to_end (d : List (Int × Block)) (k : Int) (v : Block)
    (hnd : (d.map Prod.fst).Nodup) (hk : k ∈ d.map Prod.fst) :
    (move_to_end d k v).length = d.length := by
  have h1 : (d.filter (fun p => !(p.1 == k))).length =
      ((d.map Prod.fst).filter (fun x => !(x == k))).length := by
    rw [← map_fst_filter_ne, List.length_map]
  have h2 := length_filter_ne_of_nodup (d.map Prod.fst) k hnd hk
  have h3 : (d.map Prod.fst).length = d.length := List.length_map _ _
  simp only [move_to_end, List.length_append, List.length_cons, List.length_nil]
  omega

/-- `move_to_end` keeps the cache keys duplicate-free. -/
theorem nodup_keys_move_to_end (d : List (Int × Block)) (k : Int) (v : Block)
    (hnd : (d.map Prod.fst).Nodup) :
    ((move_to_end d k v).map Prod.fst).Nodup := by
  rw [keys_move_to_end]
  exact nodup_filter_ne_append _ _ hnd

/-- Appending a fresh key keeps the cache keys duplicate-free. -/
theorem nodup_keys_append_single (d : List (Int × Block)) (k : Int) (v : Block)
    (hnd : (d.map Prod.fst).Nodup) (hk : k ∉ d.map Prod.fst) :
    ((d ++ [(k, v)]).map Prod.fst).Nodup := by
  rw [List.map_append, List.nodup_append]
  refine ⟨hnd, by simp, fun x hx hx2 => ?_⟩
  simp only [List.map_cons, List.map_nil, List.mem_singleton] at hx2
  subst hx2
  exact hk hx

/-! ### C2: the resident cache is bounded and duplicate-free -/

/-- The C2 invariant: at most `total_blocks` resident blocks, and no two
cache entries with the same start address. -/
def cache_inv (cfg : SimConfig) (st : SimState) : Prop :=
  ((st.ram_blocks.length : Int) ≤ total_blocks cfg) ∧
  (st.ram_blocks.map Prod.fst).Nodup

/-- A load of a fresh block preserves the C2 invariant when capacity is at
least one. -/
theorem load_block_cache_inv (cfg : SimConfig) (st : SimState) (blk : Block)
    (step : Nat) (nidx : Int) (hcap : 1 ≤ total_blocks cfg)
    (hnotin : blk.start_address ∉ st.ram_blocks.map Prod.fst)
    (h : cache_inv cfg st) :
    cache_inv cfg (load_block cfg st blk step nidx) := by
  obtain ⟨hlen, hnd⟩ := h
  have hram := load_block_ram_blocks cfg st blk step nidx
  by_cases hc : total_blocks cfg ≤ (st.ram_blocks.length : Int)
  · have hlen_eq : (st.ram_blocks.length : Int) = total_blocks cfg :=
      le_antisymm hlen hc
    have hpos : 1 ≤ (st.ram_blocks.length : Int) := hlen_eq ▸ hcap
    cases hrb : st.ram_blocks with
    | nil => rw [hrb] at hpos; norm_num at hpos
    | cons p rest =>
      have hkeys : st.ram_blocks.map Prod.fst = p.1 :: rest.map Prod.fst := by
        rw [hrb]; rfl
      rw [hkeys, List.nodup_cons] at hnd
      have hnotin' : blk.start_address ∉ rest.map Prod.fst := by
        intro hmem
        exact hnotin (by rw [hkeys]; exact List.mem_cons_of_mem _ hmem)
      rw [if_pos hc, evict_block_ram_blocks, hrb] at hram
      simp only [List.tail_cons] at hram
      rw [od_set_of_not_mem _ _ _ hnotin'] at hram
      constructor
      · rw [hram]
        simp only [List.length_append, List.length_cons, List.length_nil]
        have : (rest.length : Int) + 1 = st.ram_blocks.length := by
          rw [hrb]; simp
        push_cast
        omega
      · rw [hram]
        exact nodup_keys_append_single _ _ _ hnd.2 hnotin'
  · rw [if_neg hc, od_set_of_not_mem _ _ _ hnotin] at hram
    have hlt : (st.ram_blocks.length : Int) < total_blocks cfg := not_le.mp hc
    constructor
    · rw [hram]
      simp only [List.length_append, List.length_cons, List.length_nil]
      push_cast
      omega
    · rw [hram]
      exact nodup_keys_append_single _ _ _ hnd hnotin

/-- One per-block access preserves the C2 invariant when capacity is at
least one. -/
theorem access_block_cache_inv (cfg : SimConfig) (st : SimState) (tid : Int)
    (step : Nat) (nidx : Int) (w : Bool) (blk : Block)
    (hcap : 1 ≤ total_blocks cfg) (h : cache_inv cfg st) :
    cache_inv cfg (access_block cfg st tid step nidx w blk).1 := by
  unfold access_block
  cases hf : st.ram_blocks.find? (fun p => p.1 == blk.start_address) with
  | some pr =>
    obtain ⟨hmem, hkey⟩ := find?_some_key hf
    have hk : blk.start_address ∈ st.ram_blocks.map Prod.fst :=
      List.mem_map.mpr ⟨pr, hmem, hkey⟩
    obtain ⟨hlen, hnd⟩ := h
    refine ⟨?_, ?_⟩
    · show ((move_to_end st.ram_blocks blk.start_address
        (hit_update pr.2 step w)).length : Int) ≤ total_blocks cfg
      rw [length_move_to_end _ _ _ hnd hk]
      exact hlen
    · show ((move_to_end st.ram_blocks blk.start_address
        (hit_update pr.2 step w)).map Prod.fst).Nodup
      exact nodup_keys_move_to_end _ _ _ hnd
  | none =>
    exact load_block_cache_inv cfg st blk step nidx hcap (find?_none_not_mem hf) h

/-- `_access_tensor` preserves the C2 invariant when capacity is at least
one. -/
theorem access_tensor_cache_inv (cfg : SimConfig) (hcap : 1 ≤ total_blocks cfg)
    (st : SimState) (tid : Int) (step : Nat) (nidx : Int) (w : Bool)
    (h : cache_inv cfg st) :
    cache_inv cfg (access_tensor cfg st tid step nidx w) := by
  cases hl : alist_lookup cfg.tensor_data tid with
  | none =>
    unfold access_tensor
    rw [hl]
    exact h
  | some t =>
    unfold access_tensor
    rw [hl]
    have key := foldl_preserves_fst (cache_inv cfg)
      (fun acc block =>
        let s := access_block cfg acc.1 tid step nidx w block
        (s.1, acc.2 && s.2))
      (fun acc b hb => access_block_cache_inv cfg acc.1 tid step nidx w b hcap hb)
      (calculate_blocks_for_tensor cfg t) (st, true) h
    dsimp only
    split <;> exact key

/-- One driver-loop node preserves the C2 invariant when capacity is at
least one. -/
theorem process_node_cache_inv (cfg : SimConfig) (hcap : 1 ≤ total_blocks cfg)
    (st : SimState) (step : Nat) (node : PlanNode) (h : cache_inv cfg st) :
    cache_inv cfg (process_node cfg st step node) := by
  unfold process_node
  have h1 := foldl_preserves (cache_inv cfg)
    (fun st' tensor_id => if alist_contains cfg.tensor_data tensor_id then
      access_tensor cfg st' tensor_id step node.node_idx false else st')
    (fun st' tid hb => by
      dsimp only
      split
      · exact access_tensor_cache_inv cfg hcap st' tid step node.node_idx false hb
      · exact hb)
    node.inputs st h
  have h2 := foldl_preserves (cache_inv cfg)
    (fun st' tensor_id => if alist_contains cfg.tensor_data tensor_id then
      access_tensor cfg st' tensor_id step node.node_idx true else st')
    (fun st' tid hb => by
      dsimp only
      split
      · exact access_tensor_cache_inv cfg hcap st' tid step node.node_idx true hb
      · exact hb)
    node.outputs _ h1
  exact h2

/-- C2: with capacity `total_blocks ≥ 1`, the freshly constructed state
satisfies the cache invariant, every single tensor access preserves it, and
the final state of `simulate()` satisfies it: after every access the number
of resident blocks is at most `ram_size // block_size` and the cache never
holds two entries with the same block start address. -/
theorem c2_cache_bounded_and_duplicate_free (cfg : SimConfig)
    (hcap : 1 ≤ total_blocks cfg) :
    cache_inv cfg (init_state cfg) ∧
    (∀ (st : SimState) (tid : Int) (step : Nat) (nidx : Int) (w : Bool),
      cache_inv cfg st → cache_inv cfg (access_tensor cfg st tid step nidx w)) ∧
    cache_inv cfg (run_simulation cfg) := by
  have hinit : cache_inv cfg (init_state cfg) := by
    constructor
    · show ((0 : Nat) : Int) ≤ total_blocks cfg
      omega
    · show (([] : List (Int × Block)).map Prod.fst).Nodup
      simp
  refine ⟨hinit, fun st tid step nidx w h =>
    access_tensor_cache_inv cfg hcap st tid step nidx w h, ?_⟩
  unfold run_simulation
  exact foldl_preserves (cache_inv cfg) _
    (fun st sn hb => process_node_cache_inv cfg hcap st sn.1 sn.2 hb)
    cfg.execution_plan.enum (init_state cfg) hinit

/-- A capacity-2 configuration for the C2 witness. -/
def c2_cfg : SimConfig :=
  { ram_size := 8192, block_size := 4096,
    tensor_data := [(1, ⟨0, 4096⟩), (2, ⟨4096, 4096⟩), (3, ⟨8192, 4096⟩)],
    execution_plan :=
      [{ node_idx := 0, operator := "OP0", inputs := [1, 2], outputs := [3] },
       { node_idx := 1, operator := "OP1", inputs := [3], outputs := [1] }] }

/-- Witness for C2 at the concrete configuration `c2_cfg`. -/
theorem c2_cache_bounded_and_duplicate_free_witness :
    cache_inv c2_cfg (run_simulation c2_cfg) :=
  (c2_cache_bounded_and_duplicate_free c2_cfg (by decide)).2.2

/-! ### Generic preservation of per-access invariants -/

/-- Any property of the state that ignores changes to the non-block counters
and is preserved by each per-block access is preserved by
`_access_tensor`. -/
theorem access_tensor_preserves (cfg : SimConfig) (P : SimState → Prop)
    (hstats : ∀ (x : SimState) (s : Stats), s.block_misses = x.stats.block_misses →
      s.block_evictions = x.stats.block_evictions → P x → P { x with stats := s })
    (hstep : ∀ st tid step nidx w blk, P st → P (access_block cfg st tid step nidx w blk).1)
    (st : SimState) (tid : Int) (step : Nat) (nidx : Int) (w : Bool)
    (h : P st) : P (access_tensor cfg st tid step nidx w) := by
  cases hl : alist_lookup cfg.tensor_data tid with
  | none =>
    unfold access_tensor
    rw [hl]
    exact h
  | some t =>
    unfold access_tensor
    rw [hl]
    have key := foldl_preserves_fst P
      (fun acc block =>
        let s := access_block cfg acc.1 tid step nidx w block
        (s.1, acc.2 && s.2))
      (fun acc b hb => hstep acc.1 tid step nidx w b hb)
      (calculate_blocks_for_tensor cfg t) (st, true) h
    dsimp only
    split
    · exact hstats _ _ rfl rfl key
    · exact hstats _ _ rfl rfl key

/-- Same transport through one driver-loop node. -/
theorem process_node_preserves (cfg : SimConfig) (P : SimState → Prop)
    (hstats : ∀ (x : SimState) (s : Stats), s.block_misses = x.stats.block_misses →
      s.block_evictions = x.stats.block_evictions → P x → P { x with stats := s })
    (hstep : ∀ st tid step nidx w blk, P st → P (access_block cfg st tid step nidx w blk).1)
    (st : SimState) (step : Nat) (node : PlanNode) (h : P st) :
    P (process_node cfg st step node) := by
  unfold process_node
  have h1 := foldl_preserves P
    (fun st' tensor_id => if alist_contains cfg.tensor_data tensor_id then
      access_tensor cfg st' tensor_id step node.node_idx false else st')
    (fun st' tid hb => by
      dsimp only
      split
      · exact access_tensor_preserves cfg P hstats hstep st' tid step node.node_idx false hb
      · exact hb)
    node.inputs st h
  have h2 := foldl_preserves P
    (fun st' tensor_id => if alist_contains cfg.tensor_data tensor_id then
      access_tensor cfg st' tensor_id step node.node_idx true else st')
    (fun st' tid hb => by
      dsimp only
      split
      · exact access_tensor_preserves cfg P hstats hstep st' tid step node.node_idx true hb
      · exact hb)
    node.outputs _ h1
  exact hstats _ _ rfl rfl h2

/-- Same transport through the whole simulation driver. -/
theorem run_simulation_preserves (cfg : SimConfig) (P : SimState → Prop)
    (hstats : ∀ (x : SimState) (s : Stats), s.block_misses = x.stats.block_misses →
      s.block_evictions = x.stats.block_evictions → P x → P { x with stats := s })
    (hstep : ∀ st tid step nidx w blk, P st → P (access_block cfg st tid step nidx w blk).1)
    (hinit : P (init_state cfg)) : P (run_simulation cfg) := by
  unfold run_simulation
  exact foldl_preserves P _
    (fun st sn hb => process_node_preserves cfg P hstats hstep st sn.1 sn.2 hb)
    cfg.execution_plan.enum (init_state cfg) hinit

/-! ### C10: behavior at capacity zero -/

/-- The C10 invariant at capacity 0: before the first load the cache is
empty, from the first load onward it holds exactly one block, and every miss
except the very first (which "evicts" an empty cache, a silent no-op)
performs exactly one eviction. -/
def thrash_inv (st : SimState) : Prop :=
  st.ram_blocks.length = min st.stats.block_misses 1 ∧
  st.stats.block_evictions + st.ram_blocks.length = st.stats.block_misses

/-- At capacity 0 each per-block access preserves the C10 invariant. -/
theorem access_block_thrash (cfg : SimConfig) (st : SimState) (tid : Int)
    (step : Nat) (nidx : Int) (w : Bool) (blk : Block)
    (hcap : total_blocks cfg = 0) (h : thrash_inv st) :
    thrash_inv (access_block cfg st tid step nidx w blk).1 := by
  obtain ⟨hlen, hev⟩ := h
  unfold access_block
  cases hf : st.ram_blocks.find? (fun p => p.1 == blk.start_address) with
  | some pr =>
    obtain ⟨hmem, hkey⟩ := find?_some_key hf
    have hne : st.ram_blocks ≠ [] := by
      rintro hnil
      rw [hnil] at hmem
      cases hmem
    have hpos : 0 < st.ram_blocks.length := List.length_pos.mpr hne
    have hlen1 : st.ram_blocks.length = 1 := by omega
    obtain ⟨a, ha⟩ := List.length_eq_one.mp hlen1
    have hpr : a = pr := by
      rw [ha] at hmem
      exact (List.mem_singleton.mp hmem).symm
    have hbeq : (a.1 == blk.start_address) = true := by
      rw [hpr, hkey]
      simp
    have hmv : move_to_end st.ram_blocks blk.start_address (hit_update pr.2 step w) =
        [(blk.start_address, hit_update pr.2 step w)] := by
      unfold move_to_end
      rw [ha]
      simp [List.filter, hbeq]
    constructor
    · show (move_to_end st.ram_blocks blk.start_address
        (hit_update pr.2 step w)).length = min st.stats.block_misses 1
      rw [hmv]
      simpa [hlen1] using hlen
    · show st.stats.block_evictions + (move_to_end st.ram_blocks blk.start_address
        (hit_update pr.2 step w)).length = st.stats.block_misses
      rw [hmv]
      simpa [hlen1] using hev
  | none =>
    have hram := load_block_ram_blocks cfg st blk step nidx
    have hstats := load_block_stats cfg st blk step nidx
    have hcond : total_blocks cfg ≤ (st.ram_blocks.length : Int) := by
      rw [hcap]
      exact_mod_cast Int.ofNat_nonneg _
    rw [if_pos hcond, evict_block_ram_blocks] at hram
    have htail : st.ram_blocks.tail = [] := by
      cases hrb : st.ram_blocks with
      | nil => rfl
      | cons p rest =>
        have hrl : rest.length = 0 := by
          rw [hrb] at hlen
          simp only [List.length_cons] at hlen
          omega
        simpa [List.length_eq_zero] using hrl
    rw [htail] at hram
    have hods : od_set ([] : List (Int × Block)) blk.start_address
        { blk with last_access := step } =
        [(blk.start_address, { blk with last_access := step })] := by
      simp [od_set]
    rw [hods] at hram
    obtain ⟨hm, -, he⟩ := hstats
    rw [if_pos hcond] at hm he
    have hm2 := (evict_block_stats cfg st step nidx).1
    have he2 := (evict_block_stats cfg st step nidx).2.2
    rw [hm2] at hm
    rw [he2] at he
    by_cases hnil : st.ram_blocks = []
    · rw [if_pos hnil] at he
      have hl0 : st.ram_blocks.length = 0 := by rw [hnil]; rfl
      constructor
      · rw [hram, hm]
        simp only [List.length_cons, List.length_nil]
        omega
      · rw [hram, hm, he]
        simp only [List.length_cons, List.length_nil]
        omega
    · rw [if_neg hnil] at he
      have hposl : 0 < st.ram_blocks.length := List.length_pos.mpr hnil
      constructor
      · rw [hram, hm]
        simp only [List.length_cons, List.length_nil]
        omega
      · rw [hram, hm, he]
        simp only [List.length_cons, List.length_nil]
        omega

/-- C10: with ram_size < block_size the capacity is 0, yet construction and
simulation succeed: the freshly constructed state satisfies the thrash
invariant, every tensor access preserves it, and the final state satisfies
it — the cache is empty until the first load and holds exactly one block
(one more than the nominal capacity) from then on, and the eviction count is
exactly the miss count minus the one initial miss that found the cache
empty. -/
theorem c10_capacity_zero_thrash (cfg : SimConfig) (hcap : total_blocks cfg = 0) :
    thrash_inv (init_state cfg) ∧
    (∀ (st : SimState) (tid : Int) (step : Nat) (nidx : Int) (w : Bool),
      thrash_inv st → thrash_inv (access_tensor cfg st tid step nidx w)) ∧
    thrash_inv (run_simulation cfg) := by
  have hstats : ∀ (x : SimState) (s : Stats), s.block_misses = x.stats.block_misses →
      s.block_evictions = x.stats.block_evictions → thrash_inv x →
      thrash_inv { x with stats := s } := by
    intro x s hm he hx
    constructor
    · show x.ram_blocks.length = min s.block_misses 1
      rw [hm]
      exact hx.1
    · show s.block_evictions + x.ram_blocks.length = s.block_misses
      rw [hm, he]
      exact hx.2
  have hstep : ∀ (st : SimState) (tid : Int) (step : Nat) (nidx : Int) (w : Bool)
      (blk : Block), thrash_inv st → thrash_inv (access_block cfg st tid step nidx w blk).1 :=
    fun st tid step nidx w blk hb => access_block_thrash cfg st tid step nidx w blk hcap hb
  have hinit : thrash_inv (init_state cfg) := by
    constructor
    · show (0 : Nat) = min 0 1
      omega
    · show 0 + 0 = 0
      rfl
  exact ⟨hinit,
    fun st tid step nidx w h => access_tensor_preserves cfg thrash_inv hstats hstep st tid step nidx w h,
    run_simulation_preserves cfg thrash_inv hstats hstep hinit⟩

/-- A capacity-0 configuration (ram_size 1000 < block_size 4096) for the C10
witness. -/
def c10_cfg : SimConfig :=
  { ram_size := 1000, block_size := 4096,
    tensor_data := [(1, ⟨0, 4096⟩), (2, ⟨4096, 4096⟩)],
    execution_plan :=
      [{ node_idx := 0, operator := "OP0", inputs := [1], outputs := [2] },
       { node_idx := 1, operator := "OP1", inputs := [1], outputs := [] }] }

/-- Witness for C10 at the concrete capacity-0 configuration `c10_cfg`. -/
theorem c10_capacity_zero_thrash_witness : thrash_inv (run_simulation c10_cfg) :=
  (c10_capacity_zero_thrash c10_cfg (by decide)).2.2

/-! ### C6: sufficient RAM means no evictions and one miss per distinct block -/

/-- The block-aligned start addresses of the blocks an access to `tid` would
touch (empty when the tensor id is unknown). -/
def tensor_block_addrs (cfg : SimConfig) (tid : Int) : List Int :=
  match alist_lookup cfg.tensor_data tid with
  | none => []
  | some t => (calculate_blocks_for_tensor cfg t).map Block.start_address

/-- Every block start address referenced by any access of the execution plan
(with multiplicity; `dedup` it to count distinct blocks). -/
def plan_blocks (cfg : SimConfig) : List Int :=
  (cfg.execution_plan.flatMap (fun node => node.inputs ++ node.outputs)).flatMap
    (tensor_block_addrs cfg)

/-- The number of distinct blocks referenced by the execution plan. -/
def distinct_plan_block_count (cfg : SimConfig) : Nat :=
  (plan_blocks cfg).dedup.length

/-- The C6 running invariant: no eviction has happened, cache keys are
duplicate-free, every miss so far corresponds to one resident block, and all
resident blocks are blocks referenced by the plan. -/
def c6_inv (cfg : SimConfig) (st : SimState) : Prop :=
  st.stats.block_evictions = 0 ∧
  (st.ram_blocks.map Prod.fst).Nodup ∧
  st.stats.block_misses = st.ram_blocks.length ∧
  ∀ a ∈ st.ram_blocks.map Prod.fst, a ∈ plan_blocks cfg

/-- An unknown id contributes no block addresses. -/
theorem tensor_block_addrs_of_contains_false (cfg : SimConfig) (tid : Int)
    (h : alist_contains cfg.tensor_data tid = false) :
    tensor_block_addrs cfg tid = [] := by
  have hl : alist_lookup cfg.tensor_data tid = none := by
    unfold alist_contains at h
    unfold alist_lookup
    rw [List.find?_eq_none.mpr]
    · rfl
    · intro p hp
      rw [List.any_eq_false] at h
      exact h p hp
  simp [tensor_block_addrs, hl]

/-- Membership in the keys of the cache after a `move_to_end`. -/
theorem mem_keys_move_to_end (d : List (Int × Block)) (k : Int) (v : Block)
    (a : Int) (hk : k ∈ d.map Prod.fst) (ha : a ∈ d.map Prod.fst) :
    a ∈ (move_to_end d k v).map Prod.fst := by
  rw [keys_move_to_end]
  by_cases hak : a = k
  · subst hak
    simp
  · refine List.mem_append_left _ ?_
    rw [List.mem_filter]
    refine ⟨ha, ?_⟩
    simpa using hak

/-- A duplicate-free list contained in another list is at most as long as the
distinct content of the other; strictly shorter when the other has an extra
element. -/
theorem length_lt_dedup_length (keys pb : List Int) (hnd : keys.Nodup)
    (hsub : ∀ a ∈ keys, a ∈ pb) (k : Int) (hk : k ∈ pb) (hkn : k ∉ keys) :
    keys.length < pb.dedup.length := by
  have h1 : keys.toFinset.card = keys.length := by
    rw [List.card_toFinset, List.dedup_eq_self.mpr hnd]
  have h2 : pb.toFinset.card = pb.dedup.length := List.card_toFinset pb
  have hss : keys.toFinset ⊂ pb.toFinset := by
    rw [Finset.ssubset_def]
    constructor
    · intro a ha
      exact List.mem_toFinset.mpr (hsub a (List.mem_toFinset.mp ha))
    · intro hcon
      exact hkn (List.mem_toFinset.mp (hcon (List.mem_toFinset.mpr hk)))
  have := Finset.card_lt_card hss
  omega

/-- One per-block access preserves the C6 invariant, never shrinks the set
of resident blocks, and leaves the accessed block resident — provided the
capacity covers every distinct block the plan references and the accessed
block is one of them. -/
theorem access_block_c6 (cfg : SimConfig) (st : SimState) (tid : Int)
    (step : Nat) (nidx : Int) (w : Bool) (blk : Block)
    (hK : ((distinct_plan_block_count cfg : Int)) ≤ total_blocks cfg)
    (hblk : blk.start_address ∈ plan_blocks cfg)
    (h : c6_inv cfg st) :
    c6_inv cfg (access_block cfg st tid step nidx w blk).1 ∧
    (∀ a ∈ st.ram_blocks.map Prod.fst,
      a ∈ (access_block cfg st tid step nidx w blk).1.ram_blocks.map Prod.fst) ∧
    blk.start_address ∈ (access_block cfg st tid step nidx w blk).1.ram_blocks.map Prod.fst := by
  obtain ⟨hev, hnd, hmiss, hsub⟩ := h
  unfold access_block
  cases hf : st.ram_blocks.find? (fun p => p.1 == blk.start_address) with
  | some pr =>
    obtain ⟨hmem, hkey⟩ := find?_some_key hf
    have hk : blk.start_address ∈ st.ram_blocks.map Prod.fst :=
      List.mem_map.mpr ⟨pr, hmem, hkey⟩
    dsimp only
    simp only [log_memory_event]
    refine ⟨⟨hev, ?_, ?_, ?_⟩, ?_, ?_⟩
    · show ((move_to_end st.ram_blocks blk.start_address
        (hit_update pr.2 step w)).map Prod.fst).Nodup
      exact nodup_keys_move_to_end _ _ _ hnd
    · show st.stats.block_misses = (move_to_end st.ram_blocks blk.start_address
        (hit_update pr.2 step w)).length
      rw [length_move_to_end _ _ _ hnd hk]
      exact hmiss
    · intro a ha
      rw [keys_move_to_end] at ha
      rcases List.mem_append.mp ha with hfil | hsing
      · exact hsub a (List.mem_of_mem_filter hfil)
      · rw [List.mem_singleton] at hsing
        subst hsing
        exact hsub _ hk
    · intro a ha
      exact mem_keys_move_to_end _ _ _ _ hk ha
    · exact mem_keys_move_to_end _ _ _ _ hk hk
  | none =>
    have hkn : blk.start_address ∉ st.ram_blocks.map Prod.fst := find?_none_not_mem hf
    have hlt : (st.ram_blocks.length : Int) < total_blocks cfg := by
      have hlen := length_lt_dedup_length (st.ram_blocks.map Prod.fst) (plan_blocks cfg)
        hnd hsub blk.start_address hblk hkn
      have hmap : (st.ram_blocks.map Prod.fst).length = st.ram_blocks.length :=
        List.length_map _ _
      unfold distinct_plan_block_count at hK
      omega
    have hcond : ¬ (total_blocks cfg ≤ (st.ram_blocks.length : Int)) := not_le.mpr hlt
    have hram := load_block_ram_blocks cfg st blk step nidx
    rw [if_neg hcond, od_set_of_not_mem _ _ _ hkn] at hram
    obtain ⟨hm, -, he⟩ := load_block_stats cfg st blk step nidx
    rw [if_neg hcond] at hm he
    have hkeys : (load_block cfg st blk step nidx).ram_blocks.map Prod.fst =
        st.ram_blocks.map Prod.fst ++ [blk.start_address] := by
      rw [hram, List.map_append]
      rfl
    dsimp only
    refine ⟨⟨?_, ?_, ?_, ?_⟩, ?_, ?_⟩
    · rw [he]; exact hev
    · rw [hram]
      exact nodup_keys_append_single _ _ _ hnd hkn
    · rw [hm, hram]
      simp only [List.length_append, List.length_cons, List.length_nil]
      omega
    · intro a ha
      rw [hkeys] at ha
      rcases List.mem_append.mp ha with hold | hnew
      · exact hsub a hold
      · rw [List.mem_singleton] at hnew
        subst hnew
        exact hblk
    · intro a ha
      rw [hkeys]
      exact List.mem_append_left _ ha
    · rw [hkeys]
      exact List.mem_append_right _ (List.mem_singleton.mpr rfl)

/-- The per-tensor block loop preserves the C6 invariant, never shrinks the
set of resident blocks, and leaves every processed block resident. -/
theorem fold_blocks_c6 (cfg : SimConfig) (tid : Int) (step : Nat) (nidx : Int)
    (w : Bool) (hK : ((distinct_plan_block_count cfg : Int)) ≤ total_blocks cfg) :
    ∀ (blocks : List Block) (acc : SimState × Bool),
      (∀ b ∈ blocks, b.start_address ∈ plan_blocks cfg) →
      c6_inv cfg acc.1 →
      c6_inv cfg (blocks.foldl (fun acc block =>
        let s := access_block cfg acc.1 tid step nidx w block
        (s.1, acc.2 && s.2)) acc).1 ∧
      (∀ a ∈ acc.1.ram_blocks.map Prod.fst,
        a ∈ (blocks.foldl (fun acc block =>
          let s := access_block cfg acc.1 tid step nidx w block
          (s.1, acc.2 && s.2)) acc).1.ram_blocks.map Prod.fst) ∧
      (∀ b ∈ blocks, b.start_address ∈ (blocks.foldl (fun acc block =>
        let s := access_block cfg acc.1 tid step nidx w block
        (s.1, acc.2 && s.2)) acc).1.ram_blocks.map Prod.fst) := by
  intro blocks
  induction blocks with
  | nil =>
    intro acc hbs hinv
    exact ⟨hinv, fun a ha => ha, fun b hb => absurd hb (List.not_mem_nil b)⟩
  | cons b bs ih =>
    intro acc hbs hinv
    have hstep := access_block_c6 cfg acc.1 tid step nidx w b hK
      (hbs b (List.mem_cons_self b bs)) hinv
    have ihr := ih ((access_block cfg acc.1 tid step nidx w b).1,
        acc.2 && (access_block cfg acc.1 tid step nidx w b).2)
      (fun b' hb' => hbs b' (List.mem_cons_of_mem b hb')) hstep.1
    simp only [List.foldl_cons]
    refine ⟨ihr.1, ?_, ?_⟩
    · intro a ha
      exact ihr.2.1 a (hstep.2.1 a ha)
    · intro b' hb'
      rcases List.mem_cons.mp hb' with rfl | hbs'
      · exact ihr.2.1 b'.start_address hstep.2.2
      · exact ihr.2.2 b' hbs'

/-- `_access_tensor` preserves the C6 invariant, never shrinks the set of
resident blocks, and leaves every block of the accessed tensor resident. -/
theorem access_tensor_c6 (cfg : SimConfig)
    (hK : ((distinct_plan_block_count cfg : Int)) ≤ total_blocks cfg)
    (st : SimState) (tid : Int) (step : Nat) (nidx : Int) (w : Bool)
    (hsub : ∀ a ∈ tensor_block_addrs cfg tid, a ∈ plan_blocks cfg)
    (h : c6_inv cfg st) :
    c6_inv cfg (access_tensor cfg st tid step nidx w) ∧
    (∀ a ∈ st.ram_blocks.map Prod.fst,
      a ∈ (access_tensor cfg st tid step nidx w).ram_blocks.map Prod.fst) ∧
    (∀ a ∈ tensor_block_addrs cfg tid,
      a ∈ (access_tensor cfg st tid step nidx w).ram_blocks.map Prod.fst) := by
  cases hl : alist_lookup cfg.tensor_data tid with
  | none =>
    have hemp : tensor_block_addrs cfg tid = [] := by
      simp [tensor_block_addrs, hl]
    unfold access_tensor
    rw [hl]
    refine ⟨h, fun a ha => ha, ?_⟩
    intro a ha
    rw [hemp] at ha
    cases ha
  | some t =>
    have haddr : tensor_block_addrs cfg tid =
        (calculate_blocks_for_tensor cfg t).map Block.start_address := by
      simp [tensor_block_addrs, hl]
    unfold access_tensor
    rw [hl]
    dsimp only
    have key := fold_blocks_c6 cfg tid step nidx w hK
      (calculate_blocks_for_tensor cfg t) (st, true)
      (fun b hb => hsub b.start_address
        (by rw [haddr]; exact List.mem_map_of_mem _ hb)) h
    rw [haddr]
    split <;>
      exact ⟨key.1, key.2.1, fun a ha => by
        rcases List.mem_map.mp ha with ⟨b, hb, rfl⟩
        exact key.2.2 b hb⟩

/-- The driver's per-node loop over a list of tensor ids preserves the C6
invariant, never shrinks the set of resident blocks, and leaves every block
of every processed (known) tensor resident. -/
theorem fold_tids_c6 (cfg : SimConfig)
    (hK : ((distinct_plan_block_count cfg : Int)) ≤ total_blocks cfg)
    (step : Nat) (nidx : Int) (w : Bool) :
    ∀ (tids : List Int) (st : SimState),
      (∀ tid ∈ tids, ∀ a ∈ tensor_block_addrs cfg tid, a ∈ plan_blocks cfg) →
      c6_inv cfg st →
      c6_inv cfg (tids.foldl (fun st' tensor_id =>
        if alist_contains cfg.tensor_data tensor_id then
          access_tensor cfg st' tensor_id step nidx w else st') st) ∧
      (∀ a ∈ st.ram_blocks.map Prod.fst,
        a ∈ (tids.foldl (fun st' tensor_id =>
          if alist_contains cfg.tensor_data tensor_id then
            access_tensor cfg st' tensor_id step nidx w else st') st).ram_blocks.map Prod.fst) ∧
      (∀ tid ∈ tids, ∀ a ∈ tensor_block_addrs cfg tid,
        a ∈ (tids.foldl (fun st' tensor_id =>
          if alist_contains cfg.tensor_data tensor_id then
            access_tensor cfg st' tensor_id step nidx w else st') st).ram_blocks.map Prod.fst) := by
  intro tids
  induction tids with
  | nil =>
    intro st hsub hinv
    exact ⟨hinv, fun a ha => ha, fun tid htid => absurd htid (List.not_mem_nil tid)⟩
  | cons tid rest ih =>
    intro st hsub hinv
    simp only [List.foldl_cons]
    by_cases hc : alist_contains cfg.tensor_data tid = true
    · have hstep := access_tensor_c6 cfg hK st tid step nidx w
        (hsub tid (List.mem_cons_self tid rest)) hinv
      have ihr := ih (access_tensor cfg st tid step nidx w)
        (fun tid' ht' => hsub tid' (List.mem_cons_of_mem tid ht')) hstep.1
      rw [if_pos hc]
      refine ⟨ihr.1, ?_, ?_⟩
      · intro a ha
        exact ihr.2.1 a (hstep.2.1 a ha)
      · intro tid' htid' a ha
        rcases List.mem_cons.mp htid' with rfl | hrest
        · exact ihr.2.1 a (hstep.2.2 a ha)
        · exact ihr.2.2 tid' hrest a ha
    · have hcf : alist_contains cfg.tensor_data tid = false :=
        Bool.not_eq_true _ ▸ eq_false_of_ne_true hc
      have hemp := tensor_block_addrs_of_contains_false cfg tid hcf
      have ihr := ih st (fun tid' ht' => hsub tid' (List.mem_cons_of_mem tid ht')) hinv
      rw [if_neg hc]
      refine ⟨ihr.1, ihr.2.1, ?_⟩
      intro tid' htid' a ha
      rcases List.mem_cons.mp htid' with rfl | hrest
      · rw [hemp] at ha
        cases ha
      · exact ihr.2.2 tid' hrest a ha

/-- One driver-loop node preserves the C6 invariant, never shrinks the set
of resident blocks, and leaves every block referenced by the node
resident. -/
theorem process_node_c6 (cfg : SimConfig)
    (hK : ((distinct_plan_block_count cfg : Int)) ≤ total_blocks cfg)
    (st : SimState) (step : Nat) (node : PlanNode)
    (hsub : ∀ tid ∈ node.inputs ++ node.outputs,
      ∀ a ∈ tensor_block_addrs cfg tid, a ∈ plan_blocks cfg)
    (h : c6_inv cfg st) :
    c6_inv cfg (process_node cfg st step node) ∧
    (∀ a ∈ st.ram_blocks.map Prod.fst,
      a ∈ (process_node cfg st step node).ram_blocks.map Prod.fst) ∧
    (∀ tid ∈ node.inputs ++ node.outputs, ∀ a ∈ tensor_block_addrs cfg tid,
      a ∈ (process_node cfg st step node).ram_blocks.map Prod.fst) := by
  unfold process_node
  dsimp only
  have h1 := fold_tids_c6 cfg hK step node.node_idx false node.inputs st
    (fun tid ht => hsub tid (List.mem_append_left _ ht)) h
  have h2 := fold_tids_c6 cfg hK step node.node_idx true node.outputs _
    (fun tid ht => hsub tid (List.mem_append_right _ ht)) h1.1
  refine ⟨h2.1, ?_, ?_⟩
  · intro a ha
    exact h2.2.1 a (h1.2.1 a ha)
  · intro tid htid a ha
    rcases List.mem_append.mp htid with hin | hout
    · exact h2.2.1 a (h1.2.2 tid hin a ha)
    · exact h2.2.2 tid hout a ha

/-- The whole driver loop preserves the C6 invariant and leaves every block
referenced by the processed nodes resident. -/
theorem fold_plan_c6 (cfg : SimConfig)
    (hK : ((distinct_plan_block_count cfg : Int)) ≤ total_blocks cfg) :
    ∀ (l : List (Nat × PlanNode)) (st : SimState),
      (∀ sn ∈ l, ∀ tid ∈ sn.2.inputs ++ sn.2.outputs,
        ∀ a ∈ tensor_block_addrs cfg tid, a ∈ plan_blocks cfg) →
      c6_inv cfg st →
      c6_inv cfg (l.foldl (fun st sn => process_node cfg st sn.1 sn.2) st) ∧
      (∀ a ∈ st.ram_blocks.map Prod.fst,
        a ∈ (l.foldl (fun st sn =>
          process_node cfg st sn.1 sn.2) st).ram_blocks.map Prod.fst) ∧
      (∀ sn ∈ l, ∀ tid ∈ sn.2.inputs ++ sn.2.outputs,
        ∀ a ∈ tensor_block_addrs cfg tid,
        a ∈ (l.foldl (fun st sn =>
          process_node cfg st sn.1 sn.2) st).ram_blocks.map Prod.fst) := by
  intro l
  induction l with
  | nil =>
    intro st hsub hinv
    exact ⟨hinv, fun a ha => ha, fun sn hsn => absurd hsn (List.not_mem_nil sn)⟩
  | cons sn rest ih =>
    intro st hsub hinv
    simp only [List.foldl_cons]
    have hstep := process_node_c6 cfg hK st sn.1 sn.2
      (hsub sn (List.mem_cons_self sn rest)) hinv
    have ihr := ih (process_node cfg st sn.1 sn.2)
      (fun sn' hsn' => hsub sn' (List.mem_cons_of_mem sn hsn')) hstep.1
    refine ⟨ihr.1, ?_, ?_⟩
    · intro a ha
      exact ihr.2.1 a (hstep.2.1 a ha)
    · intro sn' hsn' tid htid a ha
      rcases List.mem_cons.mp hsn' with rfl | hrest
      · exact ihr.2.1 a (hstep.2.2 tid htid a ha)
      · exact ihr.2.2 sn' hrest tid htid a ha

/-- C6: if the capacity `ram_size // block_size` is at least the number of
distinct blocks referenced by the execution plan, the final stats satisfy
`block_misses = number of distinct blocks referenced` and
`block_evictions = 0`. -/
theorem c6_sufficient_ram_no_evictions (cfg : SimConfig)
    (hK : ((distinct_plan_block_count cfg : Int)) ≤ total_blocks cfg) :
    (simulate cfg).block_misses = distinct_plan_block_count cfg ∧
    (simulate cfg).block_evictions = 0 := by
  have hinit : c6_inv cfg (init_state cfg) := by
    refine ⟨rfl, ?_, rfl, ?_⟩
    · show (([] : List (Int × Block)).map Prod.fst).Nodup
      simp
    · intro a ha
      cases ha
  have hplan : ∀ sn ∈ cfg.execution_plan.enum,
      ∀ tid ∈ sn.2.inputs ++ sn.2.outputs,
      ∀ a ∈ tensor_block_addrs cfg tid, a ∈ plan_blocks cfg := by
    intro sn hsn tid htid a ha
    unfold plan_blocks
    rw [List.mem_flatMap]
    refine ⟨tid, ?_, ha⟩
    rw [List.mem_flatMap]
    refine ⟨sn.2, ?_, htid⟩
    have hmem : sn.2 ∈ cfg.execution_plan.enum.map Prod.snd :=
      List.mem_map_of_mem _ hsn
    rwa [List.enum_map_snd] at hmem
  have key := fold_plan_c6 cfg hK cfg.execution_plan.enum (init_state cfg) hplan hinit
  have hrun : run_simulation cfg =
      cfg.execution_plan.enum.foldl (fun st sn => process_node cfg st sn.1 sn.2)
        (init_state cfg) := rfl
  rw [← hrun] at key
  obtain ⟨⟨hev, hnd, hmiss, hsubk⟩, -, hcov0⟩ := key
  have hcov : ∀ a ∈ plan_blocks cfg, a ∈ (run_simulation cfg).ram_blocks.map Prod.fst := by
    intro a ha
    unfold plan_blocks at ha
    rw [List.mem_flatMap] at ha
    obtain ⟨tid, htid, ha⟩ := ha
    rw [List.mem_flatMap] at htid
    obtain ⟨node, hnode, htid⟩ := htid
    have hnode2 : node ∈ cfg.execution_plan.enum.map Prod.snd := by
      rw [List.enum_map_snd]; exact hnode
    obtain ⟨sn, hsn, hsneq⟩ := List.mem_map.mp hnode2
    exact hcov0 sn hsn tid (by rw [hsneq]; exact htid) a ha
  have hfin : ((run_simulation cfg).ram_blocks.map Prod.fst).toFinset =
      (plan_blocks cfg).toFinset := by
    ext x
    simp only [List.mem_toFinset]
    exact ⟨fun hx => hsubk x hx, fun hx => hcov x hx⟩
  have hlen : ((run_simulation cfg).ram_blocks.map Prod.fst).length =
      (plan_blocks cfg).dedup.length := by
    have h1 : ((run_simulation cfg).ram_blocks.map Prod.fst).toFinset.card =
        ((run_simulation cfg).ram_blocks.map Prod.fst).length := by
      rw [List.card_toFinset, List.dedup_eq_self.mpr hnd]
    rw [← h1, hfin, List.card_toFinset]
  have hmap : ((run_simulation cfg).ram_blocks.map Prod.fst).length =
      (run_simulation cfg).ram_blocks.length := List.length_map _ _
  constructor
  · show (run_simulation cfg).stats.block_misses = distinct_plan_block_count cfg
    rw [hmiss]
    unfold distinct_plan_block_count
    omega
  · exact hev

/-- A capacity-3 configuration whose plan references two distinct blocks
(block 0 twice, block 4096 once). -/
def c6_cfg : SimConfig :=
  { ram_size := 12288, block_size := 4096,
    tensor_data := [(1, ⟨0, 4096⟩), (2, ⟨4096, 4096⟩)],
    execution_plan :=
      [{ node_idx := 0, operator := "OP0", inputs := [1], outputs := [2] },
       { node_idx := 1, operator := "OP1", inputs := [1], outputs := [] }] }

/-- Witness for C6 at the concrete configuration `c6_cfg`. -/
theorem c6_sufficient_ram_no_evictions_witness :
    (simulate c6_cfg).block_misses = distinct_plan_block_count c6_cfg ∧
    (simulate c6_cfg).block_evictions = 0 :=
  c6_sufficient_ram_no_evictions c6_cfg (by decide)
